import Mathlib

/-!
A shallow embedding of `src/tree.rs` of the `skill-tree` repository.

Modelling conventions:
* Rust `Path`/`PathBuf` values are modelled as lists of path components
  (`Path := List String`); only relative paths occur in the claims.
  `Path::parent` drops the last component and is `none` on the empty path;
  `Path::join` appends components.
* Rust `HashMap<String, T>` is modelled as an association list
  (`List (String × T)`) with first-match lookup (`alistGet`) and
  replace-or-append insertion (`alistInsert`); the program only observes
  hash maps through `get` and `insert`, never through iteration order.
* Rust `HashSet<PathBuf>` is modelled as a `List Path` with membership
  testing; `HashSet::insert`'s boolean result corresponds to the
  membership test performed before consing.
* The file system (`std::fs::read_to_string` followed by `SkillTree::parse`)
  is modelled as an abstract finite map from paths to already-parsed
  documents (`FileSystem := List (Path × SkillTree)`); a missing entry is
  the load/parse error case (the claims under study never distinguish
  load errors from parse errors).
* Rust panics (`Option::unwrap` on `None`) are a distinguished outcome
  (`panicked`), separate from returned errors.
* The recursion of `SkillTree::load_included_path` / `SkillTree::import`
  is bounded by an explicit fuel parameter so that every definition is
  structurally recursive and kernel-computable; exhausting fuel yields the
  distinguished outcome `diverge`.  A separate theorem shows a fuel bound
  computable from the file system under which `diverge` never occurs.
* The load state additionally carries a ghost `trace` recording, in order,
  the include entries (as written) that passed the dedup/cycle guard and
  were therefore merged; it does not influence the computation.

All declarations live in the `STree` namespace to avoid clashes with
Mathlib names such as `Path` and `Group`.
-/

namespace STree

/-- A path, as a list of components (relative paths only). -/
abbrev Path := List String

/-- `Path::parent`: `none` for the empty path, otherwise drop the last
component (`Path::new("a").parent() == Some("")`). -/
def pathParent : Path → Option Path
  | [] => none
  | x :: xs => some (x :: xs).dropLast

/-- `Path::join` for relative paths: append components. -/
def pathJoin (base : Path) (rel : Path) : Path := base ++ rel

/-- `HashMap::get`: first-match lookup in an association list. -/
def alistGet {α : Type} : List (String × α) → String → Option α
  | [], _ => none
  | (k', v) :: rest, k => if k' = k then some v else alistGet rest k

/-- `HashMap::insert`: replace the binding of `k` if present, else append. -/
def alistInsert {α : Type} : List (String × α) → String → α → List (String × α)
  | [], k, v => [(k, v)]
  | (k', v') :: rest, k, v =>
    if k' = k then (k, v) :: rest else (k', v') :: alistInsert rest k v

/-- `struct Graphviz` of `tree.rs`. -/
structure Graphviz where
  rankdir : Option String

/-- `type EmojiMap = HashMap<String, String>` of `tree.rs`. -/
abbrev EmojiMap := List (String × String)

/-- `struct Doc` of `tree.rs`. -/
structure Doc where
  columns : Option (List String)
  defaults : Option (List (String × String))
  emoji : Option (List (String × EmojiMap))
  «include» : Option (List Path)

/-- `Doc::default()` (`#[derive(Default)]`): all fields `None`. -/
def Doc.empty : Doc := ⟨none, none, none, none⟩

/-- `enum Status` of `tree.rs`. -/
inductive Status where
  | Blocked
  | Unassigned
  | Assigned
  | Complete

/-- `struct Cluster` of `tree.rs`. -/
structure Cluster where
  name : String
  label : String
  color : Option String
  style : Option String

/-- `type Item = HashMap<String, String>` of `tree.rs`. -/
abbrev Item := List (String × String)

/-- `struct Group` of `tree.rs`. -/
structure Group where
  name : String
  cluster : Option String
  label : Option String
  requires : Option (List String)
  description : Option (List String)
  items : List Item
  width : Option Float
  status : Option Status
  href : Option String
  header_color : Option String
  description_color : Option String

/-- `struct SkillTree` of `tree.rs`. -/
structure SkillTree where
  group : Option (List Group)
  cluster : Option (List Cluster)
  graphviz : Option Graphviz
  doc : Option Doc

/-- `SkillTree::groups`: iterate `self.group`, empty when `None`. -/
def SkillTree.groups (t : SkillTree) : List Group := t.group.getD []

/-- `SkillTree::group_named`: linear search by exact name, first match. -/
def SkillTree.group_named (t : SkillTree) (name : String) : Option Group :=
  t.groups.find? (fun g => g.name == name)

/-- `SkillTree::columns`: the declared column list, or `[]` when either
`doc` or `doc.columns` is absent. -/
def SkillTree.columns (t : SkillTree) : List String :=
  match t.doc with
  | some doc =>
    match doc.columns with
    | some columns => columns
    | none => []
  | none => []

/-- `SkillTree::emoji`: translate `input` through the per-column emoji map,
returning `input` unchanged when any link of the chain is absent. -/
def SkillTree.emoji (t : SkillTree) (column : String) (input : String) : String :=
  match t.doc with
  | some doc =>
    match doc.emoji with
    | some emoji_maps =>
      match alistGet emoji_maps column with
      | some emoji_map =>
        match alistGet emoji_map input with
        | some output => output
        | none => input
      | none => input
    | none => input
  | none => input

/-- Outcome of an operation that either produces a value or panics
(`Option::unwrap` on `None`). -/
inductive PanicOr (α : Type) where
  | ok : α → PanicOr α
  | panicked : PanicOr α

/-- `ItemExt::href for Item`: `self.get("href")`. -/
def ItemExt.href (item : Item) : Option String := alistGet item "href"

/-- `ItemExt::label for Item`: `self.get("label").unwrap()` — panics when
the `label` key is absent. -/
def ItemExt.label (item : Item) : PanicOr String :=
  match alistGet item "label" with
  | some v => PanicOr.ok v
  | none => PanicOr.panicked

/-- `ItemExt::column_value for Item`: the item's own value for column `c`
when present, else the tree-wide default for `c` when declared, else `""`. -/
def ItemExt.column_value (item : Item) (tree : SkillTree) (c : String) : String :=
  match alistGet item c with
  | some v => v
  | none =>
    match tree.doc with
    | some doc =>
      match doc.defaults with
      | some defaults =>
        match alistGet defaults c with
        | some default_value => default_value
        | none => ""
      | none => ""
    | none => ""

/-- The tree-wide default for column `c`, as `column_value`'s fallback
chain reads it: `tree.doc` then `doc.defaults` then `defaults.get(c)`. -/
def treeDefault (tree : SkillTree) (c : String) : Option String :=
  match tree.doc with
  | some doc =>
    match doc.defaults with
    | some defaults => alistGet defaults c
    | none => none
  | none => none

/-- The emoji-table entry for `(column, input)`, as `SkillTree::emoji`'s
lookup chain reads it: `tree.doc`, `doc.emoji`, the per-column map, the
per-input entry. -/
def emojiEntry (t : SkillTree) (column : String) (input : String) : Option String :=
  match t.doc with
  | some doc =>
    match doc.emoji with
    | some emoji_maps =>
      match alistGet emoji_maps column with
      | some emoji_map => alistGet emoji_map input
      | none => none
    | none => none
  | none => none

/-! ## The inclusion resolver (`SkillTree::load` / `SkillTree::import`) -/

/-- The file system, combined with the parser: a finite map from paths to
already-parsed documents.  `fsRead` models `std::fs::read_to_string`
followed by `SkillTree::parse`; a missing path is the error case. -/
abbrev FileSystem := List (Path × SkillTree)

/-- Look a path up in the file system. -/
def fsRead : FileSystem → Path → Option SkillTree
  | [], _ => none
  | (p', t) :: rest, p => if p' = p then some t else fsRead rest p

/-- Outcome of a load: success, a returned error (`anyhow::Result::Err`,
covering both unreadable files and parse failures), a panic
(`Option::unwrap` on `None`), or fuel exhaustion. -/
inductive LoadOutcome (α : Type) where
  | ok : α → LoadOutcome α
  | error : LoadOutcome α
  | panicked : LoadOutcome α
  | diverge : LoadOutcome α

/-- The state threaded through the recursive load: the `loaded` set of
`SkillTree::load` (`HashSet<PathBuf>`, as a list), plus a ghost `trace`
recording, in order, each include entry (as written in the including
document) that passed the dedup/cycle guard and was therefore merged. -/
structure LoadState where
  loaded : List Path
  trace : List Path

/-- The body of `SkillTree::import`'s column loop for a column not yet
present in the accumulator: append it to the accumulator's column list
and carry over its emoji table and default value when the included
document (`tomlDoc`) has them. -/
def mergeColumnStep (tomlDoc selfDoc : Doc) (column : String) : Doc :=
  let columns := selfDoc.columns.getD []
  let selfDoc := { selfDoc with columns := some (columns ++ [column]) }
  let selfDoc :=
    match alistGet (tomlDoc.emoji.getD []) column with
    | some value =>
      { selfDoc with emoji := some (alistInsert (selfDoc.emoji.getD []) column value) }
    | none => selfDoc
  match alistGet (tomlDoc.defaults.getD []) column with
  | some value =>
    { selfDoc with
        defaults := some (alistInsert (selfDoc.defaults.getD []) column value) }
  | none => selfDoc

/-- The loop of `SkillTree::import` that merges the columns of an
included document into the accumulator, walking the included document's
column list in order: a column not yet present is appended (with its
default/emoji, via `mergeColumnStep`); a column already present is
skipped entirely.  The `get_or_insert(vec![])` of the source is the
`columns := some columns` update. -/
def mergeColumnsLoop (tomlDoc : Doc) : List String → Doc → Doc
  | [], selfDoc => selfDoc
  | column :: rest, selfDoc =>
    let columns := selfDoc.columns.getD []
    let selfDoc := { selfDoc with columns := some columns }
    if column ∈ columns then
      mergeColumnsLoop tomlDoc rest selfDoc
    else
      mergeColumnsLoop tomlDoc rest (mergeColumnStep tomlDoc selfDoc column)

/-- The merge step of `SkillTree::import`: merge the (already fully
merged) included document `toml` into the accumulating document `self` —
columns with their newly-introduced defaults/emoji tables, then groups,
then clusters. -/
def mergeTree (self toml : SkillTree) : SkillTree :=
  let selfDoc := self.doc.getD Doc.empty
  let tomlDoc := toml.doc.getD Doc.empty
  let tomlColumns := tomlDoc.columns.getD []
  let selfDoc := mergeColumnsLoop tomlDoc tomlColumns selfDoc
  { self with
      doc := some selfDoc
      group := some (self.group.getD [] ++ toml.group.getD [])
      cluster := some (self.cluster.getD [] ++ toml.cluster.getD []) }

/-- The `for include_path in include` loop of `SkillTree::import`,
defunctionalised over the recursive loader `loadFn` (which is
`loadIncludedPath` at one less fuel).  Mirrors the source: the guard
inserts the include entry as written into `loaded` and skips entries
already present; only then is the resolved path computed via
`root_path.parent().unwrap().join(include_path)` — the `unwrap` panics
when `root_path` has no parent. -/
def importLoop (loadFn : Path → LoadState → LoadOutcome (SkillTree × LoadState))
    (rootPath : Path) :
    List Path → SkillTree → LoadState → LoadOutcome (SkillTree × LoadState)
  | [], self, st => LoadOutcome.ok (self, st)
  | includePath :: rest, self, st =>
    if includePath ∈ st.loaded then
      importLoop loadFn rootPath rest self st
    else
      let st' : LoadState := ⟨includePath :: st.loaded, st.trace ++ [includePath]⟩
      match pathParent rootPath with
      | none => LoadOutcome.panicked
      | some dir =>
        match loadFn (pathJoin dir includePath) st' with
        | LoadOutcome.ok (toml, st'') =>
          importLoop loadFn rootPath rest (mergeTree self toml) st''
        | LoadOutcome.error => LoadOutcome.error
        | LoadOutcome.panicked => LoadOutcome.panicked
        | LoadOutcome.diverge => LoadOutcome.diverge

/-- `SkillTree::import`: when the document has metadata with an include
list, run the include loop on a snapshot of that list; otherwise return
the document unchanged. -/
def importTree (loadFn : Path → LoadState → LoadOutcome (SkillTree × LoadState))
    (tree : SkillTree) (rootPath : Path) (st : LoadState) :
    LoadOutcome (SkillTree × LoadState) :=
  match tree.doc with
  | none => LoadOutcome.ok (tree, st)
  | some doc =>
    match doc.«include» with
    | none => LoadOutcome.ok (tree, st)
    | some inc => importLoop loadFn rootPath inc tree st

/-- `SkillTree::load_included_path`: read and parse the file at `path`,
then run `import` on the result.  The explicit fuel bounds the recursion
depth; `diverge` is returned when it runs out. -/
def loadIncludedPath (fs : FileSystem) :
    Nat → Path → LoadState → LoadOutcome (SkillTree × LoadState)
  | 0, _, _ => LoadOutcome.diverge
  | fuel + 1, path, st =>
    match fsRead fs path with
    | none => LoadOutcome.error
    | some tree => importTree (loadIncludedPath fs fuel) tree path st

/-- `SkillTree::load` with the final state kept: seed the loaded set with
the root path and run `load_included_path`. -/
def loadWithState (fs : FileSystem) (fuel : Nat) (path : Path) :
    LoadOutcome (SkillTree × LoadState) :=
  loadIncludedPath fs fuel path ⟨[path], []⟩

/-- `SkillTree::load`: the fully merged root document. -/
def load (fs : FileSystem) (fuel : Nat) (path : Path) : LoadOutcome SkillTree :=
  match loadWithState fs fuel path with
  | LoadOutcome.ok (tree, _) => LoadOutcome.ok tree
  | LoadOutcome.error => LoadOutcome.error
  | LoadOutcome.panicked => LoadOutcome.panicked
  | LoadOutcome.diverge => LoadOutcome.diverge

/-! ## Observation helpers used to state the claims -/

/-- The include entries of a document, as written (empty when the document
has no metadata or no include list). -/
def treeIncludes (t : SkillTree) : List Path :=
  match t.doc with
  | some doc => doc.«include».getD []
  | none => []

/-- All include entries appearing anywhere in the file system. -/
def fsEntries : FileSystem → List Path
  | [] => []
  | (_, t) :: rest => treeIncludes t ++ fsEntries rest

/-- The resolved include edges of the document stored at `p`: each include
entry joined against the including document's directory.  This is the
include graph the specification speaks about. -/
def resolvedIncludes (fs : FileSystem) (p : Path) : List Path :=
  match fsRead fs p, pathParent p with
  | some t, some dir => (treeIncludes t).map (pathJoin dir)
  | _, _ => []

/-- The group names of a load result, in merged order (empty on failure). -/
def groupNamesOf : LoadOutcome SkillTree → List String
  | LoadOutcome.ok t => t.groups.map Group.name
  | _ => []

/-- The merged column list of a load result (empty on failure). -/
def columnsOf : LoadOutcome SkillTree → List String
  | LoadOutcome.ok t => t.columns
  | _ => []

/-- The tree-wide default of a load result for a column (none on failure). -/
def defaultOf (out : LoadOutcome SkillTree) (c : String) : Option String :=
  match out with
  | LoadOutcome.ok t => treeDefault t c
  | _ => none

/-- The ghost trace of a load: the include entries, as written, that
passed the dedup guard and were merged (empty on failure). -/
def traceOf : LoadOutcome (SkillTree × LoadState) → List Path
  | LoadOutcome.ok (_, st) => st.trace
  | _ => []

/-- Whether a load panicked. -/
def isPanicked : LoadOutcome SkillTree → Bool
  | LoadOutcome.panicked => true
  | _ => false

/-- Whether a load ran out of fuel. -/
def isDiverge : LoadOutcome SkillTree → Bool
  | LoadOutcome.diverge => true
  | _ => false

/-- Whether a load succeeded. -/
def isOk : LoadOutcome SkillTree → Bool
  | LoadOutcome.ok _ => true
  | _ => false

/-- Modelled from the spec (§4.2, step 3): the include loop as the
specification words it — for each include entry, first compute the
resolved path by joining the entry against the including document's
directory, then test and insert the RESOLVED path in the loaded set
(skip when present), and otherwise recursively load it and merge.  This
definition exists only to compare the source's guard (keyed by the raw
include entry) against the specification's guard (keyed by the resolved
path); merging is the same `mergeTree`. -/
def importLoopResolved (loadFn : Path → LoadState → LoadOutcome (SkillTree × LoadState))
    (rootPath : Path) :
    List Path → SkillTree → LoadState → LoadOutcome (SkillTree × LoadState)
  | [], self, st => LoadOutcome.ok (self, st)
  | includePath :: rest, self, st =>
    match pathParent rootPath with
    | none => LoadOutcome.panicked
    | some dir =>
      let treePath := pathJoin dir includePath
      if treePath ∈ st.loaded then
        importLoopResolved loadFn rootPath rest self st
      else
        match loadFn treePath ⟨treePath :: st.loaded, st.trace ++ [treePath]⟩ with
        | LoadOutcome.ok (toml, st'') =>
          importLoopResolved loadFn rootPath rest (mergeTree self toml) st''
        | LoadOutcome.error => LoadOutcome.error
        | LoadOutcome.panicked => LoadOutcome.panicked
        | LoadOutcome.diverge => LoadOutcome.diverge

/-- Modelled from the spec: `merge_includes` with the resolved-path guard
of `importLoopResolved`. -/
def importTreeResolved (loadFn : Path → LoadState → LoadOutcome (SkillTree × LoadState))
    (tree : SkillTree) (rootPath : Path) (st : LoadState) :
    LoadOutcome (SkillTree × LoadState) :=
  match tree.doc with
  | none => LoadOutcome.ok (tree, st)
  | some doc =>
    match doc.«include» with
    | none => LoadOutcome.ok (tree, st)
    | some inc => importLoopResolved loadFn rootPath inc tree st

/-- Modelled from the spec: `load_one` with the resolved-path guard. -/
def loadIncludedPathResolved (fs : FileSystem) :
    Nat → Path → LoadState → LoadOutcome (SkillTree × LoadState)
  | 0, _, _ => LoadOutcome.diverge
  | fuel + 1, path, st =>
    match fsRead fs path with
    | none => LoadOutcome.error
    | some tree => importTreeResolved (loadIncludedPathResolved fs fuel) tree path st

/-- Modelled from the spec: `load(root_path)` with the resolved-path
guard, seeding the loaded set with the root path. -/
def loadResolved (fs : FileSystem) (fuel : Nat) (path : Path) : LoadOutcome SkillTree :=
  match loadIncludedPathResolved fs fuel path ⟨[path], []⟩ with
  | LoadOutcome.ok (tree, _) => LoadOutcome.ok tree
  | LoadOutcome.error => LoadOutcome.error
  | LoadOutcome.panicked => LoadOutcome.panicked
  | LoadOutcome.diverge => LoadOutcome.diverge

/-- A group with the given name and no other attributes, for concrete
test documents. -/
def mkGroup (n : String) : Group :=
  ⟨n, none, none, none, none, [], none, none, none, none, none⟩

/-- A document holding the given groups and metadata. -/
def mkTree (gs : Option (List Group)) (doc : Option Doc) : SkillTree :=
  ⟨gs, none, none, doc⟩

/-- A document metadata block holding only an include list. -/
def docI (inc : List Path) : Doc := ⟨none, none, none, some inc⟩

/-! ## Concrete file systems exercising the loader -/

/-- Two sibling directories whose documents each include the entry
`["common"]`, which resolves to two different files. -/
def fsShadow : FileSystem :=
  [ (["a"], mkTree (some [mkGroup "gA"]) (some (docI [["d1", "b1"], ["d2", "b2"]]))),
    (["d1", "b1"], mkTree (some [mkGroup "gB1"]) (some (docI [["common"]]))),
    (["d2", "b2"], mkTree (some [mkGroup "gB2"]) (some (docI [["common"]]))),
    (["d1", "common"], mkTree (some [mkGroup "gc1"]) none),
    (["d2", "common"], mkTree (some [mkGroup "gc2"]) none) ]

/-- An include cycle `["x","d"] ↔ ["x","b"]` below root `["a"]`, where the
two documents of the cycle are reachable both from the root (entries
`["x","d"]`, `["x","b"]`) and from inside directory `x` (entries `["d"]`,
`["b"]`), so each is written with two distinct include entries. -/
def fsCycle : FileSystem :=
  [ (["a"], mkTree (some [mkGroup "gA"]) (some (docI [["x", "d"], ["x", "b"]]))),
    (["x", "d"], mkTree (some [mkGroup "gD"]) (some (docI [["b"]]))),
    (["x", "b"], mkTree (some [mkGroup "gXB"]) (some (docI [["d"]]))) ]

/-- A diamond `a → {x/b, c} → x/d` in the resolved include graph, where
the two branches write the shared document `["x","d"]` with two distinct
include entries (`["d"]` from inside `x`, `["x","d"]` from the top
level). -/
def fsDiamondMixed : FileSystem :=
  [ (["a"], mkTree (some [mkGroup "gA"]) (some (docI [["x", "b"], ["c"]]))),
    (["x", "b"], mkTree (some [mkGroup "gB"]) (some (docI [["d"]]))),
    (["c"], mkTree (some [mkGroup "gC"]) (some (docI [["x", "d"]]))),
    (["x", "d"], mkTree (some [mkGroup "gD"]) (some ⟨some ["dc"], none, none, none⟩)) ]

/-- A diamond `a → {b, c} → d` with every document in the same directory,
so both branches write the shared document with the same include entry
`["d"]`; the groups are arbitrary. -/
def fsDiamond (gA gB gC gD : Group) : FileSystem :=
  [ (["a"], mkTree (some [gA]) (some (docI [["b"], ["c"]]))),
    (["b"], mkTree (some [gB]) (some (docI [["d"]]))),
    (["c"], mkTree (some [gC]) (some (docI [["d"]]))),
    (["d"], mkTree (some [gD]) (some ⟨some ["dc"], none, none, none⟩)) ]

/-- The merged document of the same-directory diamond: each document's
groups appear exactly once, in merge order, and `d`'s column exactly
once. -/
def fsDiamondMerged (gA gB gC gD : Group) : SkillTree :=
  { group := some [gA, gB, gD, gC],
    cluster := some [],
    graphviz := none,
    doc := some ⟨some ["dc"], none, none, some [["b"], ["c"]]⟩ }

/-- Root declaring columns `[x, y]` including a document declaring
columns `[y, z]`. -/
def fsColumns : FileSystem :=
  [ (["a"], mkTree (some [mkGroup "gA"]) (some ⟨some ["x", "y"], none, none, some [["b"]]⟩)),
    (["b"], mkTree none (some ⟨some ["y", "z"], none, none, none⟩)) ]

/-- A column `s` first introduced by include `b` with default `"?"`, then
redeclared by include `c` with default `"!"`. -/
def fsDefaults : FileSystem :=
  [ (["a"], mkTree none (some (docI [["b"], ["c"]]))),
    (["b"], mkTree none (some ⟨some ["s"], some [("s", "?")], none, none⟩)),
    (["c"], mkTree none (some ⟨some ["s"], some [("s", "!")], none, none⟩)) ]

/-- A document stored at the empty path (which has no parent component)
whose metadata lists one include entry. -/
def fsNoParent : FileSystem := [([], mkTree none (some (docI [["i"]])))]

/-! ## The validator (`SkillTree::validate` / `Group::validate`) -/

/-- `ItemExt::validate for Item`: all its checks are unimplemented
comments, so it always succeeds. -/
def ItemExt.validate (_item : Item) : Except (String × String) Unit := Except.ok ()

/-- The `for item in &self.items` loop of `Group::validate`. -/
def Group.validateItems : List Item → Except (String × String) Unit
  | [] => Except.ok ()
  | item :: rest =>
    match ItemExt.validate item with
    | Except.ok _ => Group.validateItems rest
    | Except.error e => Except.error e

/-- The `for group_name in self.requires.iter().flatten()` loop of
`Group::validate`: the first name that `group_named` cannot resolve
aborts with an error carrying the dependant group's name and the missing
dependency's name (the two values interpolated into the `anyhow::bail!`
message). -/
def Group.validateRequires (selfName : String) (tree : SkillTree) :
    List String → Except (String × String) Unit
  | [] => Except.ok ()
  | group_name :: rest =>
    if (tree.group_named group_name).isNone then Except.error (selfName, group_name)
    else Group.validateRequires selfName tree rest

/-- `Group::validate`: check the dependency names, then the items. -/
def Group.validate (g : Group) (tree : SkillTree) : Except (String × String) Unit :=
  match Group.validateRequires g.name tree (g.requires.getD []) with
  | Except.error e => Except.error e
  | Except.ok _ => Group.validateItems g.items

/-- The `for group in self.groups()` loop of `SkillTree::validate`. -/
def SkillTree.validateGroups (tree : SkillTree) : List Group → Except (String × String) Unit
  | [] => Except.ok ()
  | g :: rest =>
    match Group.validate g tree with
    | Except.error e => Except.error e
    | Except.ok _ => SkillTree.validateGroups tree rest

/-- `SkillTree::validate`: validate every group against the merged tree. -/
def SkillTree.validate (tree : SkillTree) : Except (String × String) Unit :=
  tree.validateGroups tree.groups

/-- Modelled from the spec (§4.4): within one group's declared dependency
list, the first name that `group_named` cannot resolve, paired with the
dependant group's name. -/
def specFirstMissingInReqs (tree : SkillTree) (gname : String) :
    List String → Option (String × String)
  | [] => none
  | n :: rest =>
    if (tree.group_named n).isNone then some (gname, n)
    else specFirstMissingInReqs tree gname rest

/-- Modelled from the spec (§4.4): walking the groups in merged-document
order and each group's dependency list in declared order, the first
(dependant group, missing dependency) pair, if any. -/
def specFirstMissingDep (tree : SkillTree) : List Group → Option (String × String)
  | [] => none
  | g :: rest =>
    match specFirstMissingInReqs tree g.name (g.requires.getD []) with
    | some e => some e
    | none => specFirstMissingDep tree rest

/-! ## Further observation helpers -/

/-- A document metadata block's column list (`columns.get_or_insert(vec![])`
reads it as `[]` when absent). -/
def docColumns (d : Doc) : List String := d.columns.getD []

/-- A document metadata block's default for column `c`. -/
def docDefault (d : Doc) (c : String) : Option String := alistGet (d.defaults.getD []) c

/-- A document metadata block's emoji table for column `c`. -/
def docEmoji (d : Doc) (c : String) : Option EmojiMap := alistGet (d.emoji.getD []) c

/-- The number of include entries of the file system not yet in the
loaded set — the measure that shrinks at every recursive load. -/
def countFresh (fs : FileSystem) (loaded : List Path) : Nat :=
  ((fsEntries fs).filter (fun e => decide (e ∉ loaded))).length

/-- Invariant of the load state: the trace of merged include entries has
no duplicates, and every traced entry is in the loaded set. -/
def StateWF (st : LoadState) : Prop :=
  st.trace.Nodup ∧ ∀ p ∈ st.trace, p ∈ st.loaded

/-- A group with a name and a dependency list only. -/
def mkGroupReq (n : String) (reqs : List String) : Group :=
  ⟨n, none, none, some reqs, none, [], none, none, none, none, none⟩

/-- A tree whose group `B` depends on a group `A` that does not exist. -/
def treeMissingDep : SkillTree := mkTree (some [mkGroupReq "B" ["A"]]) none

/-- A tree whose dependency names all resolve. -/
def treeAllDepsOk : SkillTree :=
  mkTree (some [mkGroupReq "A" [], mkGroupReq "B" ["A"]]) none

/-- Counterexample to C1: the dedup/cycle guard of `SkillTree::import` is
NOT keyed by the resolved path.  In `fsShadow`, the documents in the two
sibling directories both write the include entry `["common"]`, which
resolves to two different files; the source loader (guard on the entry as
written) skips the second one entirely, while the spec's resolved-path
loader merges both, so the two loaders observably differ. -/
theorem guard_not_keyed_by_resolved_path_cex :
    resolvedIncludes fsShadow ["d1", "b1"] = [["d1", "common"]] ∧
    resolvedIncludes fsShadow ["d2", "b2"] = [["d2", "common"]] ∧
    groupNamesOf (load fsShadow 10 ["a"]) = ["gA", "gB1", "gc1", "gB2"] ∧
    groupNamesOf (loadResolved fsShadow 10 ["a"]) = ["gA", "gB1", "gc1", "gB2", "gc2"] ∧
    groupNamesOf (load fsShadow 10 ["a"]) ≠
      groupNamesOf (loadResolved fsShadow 10 ["a"]) := by decide

/-- Counterexample to C2: in `fsCycle` the root's include graph contains
the cycle `["x","d"] → ["x","b"] → ["x","d"]`; the load completes, but
each document of the cycle is merged into the root twice, because each is
reachable through two distinct include entries as written. -/
theorem cycle_document_merged_twice_cex :
    resolvedIncludes fsCycle ["a"] = [["x", "d"], ["x", "b"]] ∧
    resolvedIncludes fsCycle ["x", "d"] = [["x", "b"]] ∧
    resolvedIncludes fsCycle ["x", "b"] = [["x", "d"]] ∧
    isOk (load fsCycle 10 ["a"]) = true ∧
    List.count "gD" (groupNamesOf (load fsCycle 10 ["a"])) = 2 ∧
    List.count "gXB" (groupNamesOf (load fsCycle 10 ["a"])) = 2 := by decide

/-- Counterexample to C3: `fsDiamondMixed` is a diamond in the resolved
include graph (root `["a"]` includes `["x","b"]` and `["c"]`, and both
include `["x","d"]`), yet the shared document's group is merged twice,
because the two branches write the shared document with distinct include
entries (`["d"]` versus `["x","d"]`).  Its column, deduplicated by name
rather than by path, is still merged once. -/
theorem diamond_document_merged_twice_cex :
    resolvedIncludes fsDiamondMixed ["a"] = [["x", "b"], ["c"]] ∧
    resolvedIncludes fsDiamondMixed ["x", "b"] = [["x", "d"]] ∧
    resolvedIncludes fsDiamondMixed ["c"] = [["x", "d"]] ∧
    resolvedIncludes fsDiamondMixed ["x", "d"] = [] ∧
    isOk (load fsDiamondMixed 10 ["a"]) = true ∧
    List.count "gD" (groupNamesOf (load fsDiamondMixed 10 ["a"])) = 2 ∧
    columnsOf (load fsDiamondMixed 10 ["a"]) = ["dc"] := by decide

/-- C3 as amended: for a diamond-shaped include graph in which both
branches write the shared document with the same include entry (here all
documents live in one directory, so both `b` and `c` include `["d"]`),
loading the root merges the shared document's groups and columns exactly
once — the merged document is exactly `fsDiamondMerged`, whatever the four
groups are. -/
theorem diamond_same_entry_merged_once (gA gB gC gD : Group) :
    load (fsDiamond gA gB gC gD) 10 ["a"] =
      LoadOutcome.ok (fsDiamondMerged gA gB gC gD) := rfl

/-- C10: a document stored at a path with no parent component (here the
empty path) whose metadata lists one not-yet-loaded include entry makes
`load` panic (`root_path.parent().unwrap()` in `SkillTree::import`)
instead of returning a load or parse error. -/
theorem load_panics_on_parentless_root :
    pathParent ([] : Path) = none ∧
    treeIncludes (mkTree none (some (docI [["i"]]))) = [["i"]] ∧
    load fsNoParent 10 [] = LoadOutcome.panicked := ⟨rfl, rfl, rfl⟩

/-- `column_value` factors through the fallback chain: own value, then
tree-wide default, then the empty string. -/
theorem column_value_eq (item : Item) (tree : SkillTree) (c : String) :
    ItemExt.column_value item tree c =
      match alistGet item c with
      | some v => v
      | none =>
        match treeDefault tree c with
        | some d => d
        | none => "" := by
  unfold ItemExt.column_value treeDefault
  rcases alistGet item c with _ | v
  · rcases htd : tree.doc with _ | doc
    · rfl
    · rcases hdef : doc.defaults with _ | defaults
      · simp [hdef]
      · simp [hdef]
  · rfl

/-- `emoji` factors through the lookup chain `emojiEntry`, with identity
fallback. -/
theorem emoji_eq (t : SkillTree) (column input : String) :
    t.emoji column input =
      match emojiEntry t column input with
      | some output => output
      | none => input := by
  unfold SkillTree.emoji emojiEntry
  rcases htd : t.doc with _ | doc
  · rfl
  · rcases hem : doc.emoji with _ | emoji_maps
    · simp [hem]
    · rcases hmap : alistGet emoji_maps column with _ | emoji_map
      · simp [hem, hmap]
      · rcases hout : alistGet emoji_map input with _ | output
        · simp [hem, hmap, hout]
        · simp [hem, hmap, hout]

/-- C6: for every item, tree and column name, `column_value` returns the
item's own value for that column if the item has one; otherwise the
tree-wide default for that column if one is declared in the document
metadata; otherwise the empty string — and it is a total function, so it
never fails. -/
theorem column_value_fallback_chain (item : Item) (tree : SkillTree) (c : String) :
    (∀ v, alistGet item c = some v → ItemExt.column_value item tree c = v) ∧
    (∀ d, alistGet item c = none → treeDefault tree c = some d →
      ItemExt.column_value item tree c = d) ∧
    (alistGet item c = none → treeDefault tree c = none →
      ItemExt.column_value item tree c = "") := by
  refine ⟨fun v hv => ?_, fun d h1 h2 => ?_, fun h1 h2 => ?_⟩
  · rw [column_value_eq, hv]
  · rw [column_value_eq, h1, h2]
  · rw [column_value_eq, h1, h2]

/-- Witness for C6: exercises all three branches of the fallback chain at
concrete inputs. -/
theorem column_value_fallback_chain_witness :
    ItemExt.column_value [("s", "v")] ⟨none, none, none, none⟩ "s" = "v" ∧
    ItemExt.column_value []
      ⟨none, none, none, some ⟨none, some [("s", "d")], none, none⟩⟩ "s" = "d" ∧
    ItemExt.column_value [] ⟨none, none, none, none⟩ "s" = "" :=
  ⟨(column_value_fallback_chain [("s", "v")] ⟨none, none, none, none⟩ "s").1 "v" (by decide),
   (column_value_fallback_chain []
      ⟨none, none, none, some ⟨none, some [("s", "d")], none, none⟩⟩ "s").2.1 "d"
      (by decide) (by decide),
   (column_value_fallback_chain [] ⟨none, none, none, none⟩ "s").2.2
      (by decide) (by decide)⟩

/-- C7: for every tree, column name and raw input, `emoji` returns the
translation-table entry for that column and input when the whole lookup
chain succeeds, and otherwise returns the raw input unchanged; it is a
total function, so it never fails. -/
theorem emoji_identity_fallback (t : SkillTree) (column input : String) :
    (∀ output, emojiEntry t column input = some output →
      t.emoji column input = output) ∧
    (emojiEntry t column input = none → t.emoji column input = input) := by
  refine ⟨fun output h => ?_, fun h => ?_⟩
  · rw [emoji_eq, h]
  · rw [emoji_eq, h]

/-- Witness for C7: a present entry is translated, and
`emoji "status" "unknown"` falls back to `"unknown"` when no table exists. -/
theorem emoji_identity_fallback_witness :
    SkillTree.emoji
      ⟨none, none, none, some ⟨none, none, some [("status", [("done", "X")])], none⟩⟩
      "status" "done" = "X" ∧
    SkillTree.emoji ⟨none, none, none, none⟩ "status" "unknown" = "unknown" :=
  ⟨(emoji_identity_fallback
      ⟨none, none, none, some ⟨none, none, some [("status", [("done", "X")])], none⟩⟩
      "status" "done").1 "X" (by decide),
   (emoji_identity_fallback ⟨none, none, none, none⟩ "status" "unknown").2
      (by decide)⟩

/-- C9: for every item, `label` returns the value of the `label` key when
present, and panics (an unrecoverable failure, not a returned error value)
when the key is absent; under the precondition that a `label` key is
present, the panic branch is unreachable. -/
theorem label_panics_iff_absent (item : Item) :
    (∀ v, alistGet item "label" = some v → ItemExt.label item = PanicOr.ok v) ∧
    (alistGet item "label" = none → ItemExt.label item = PanicOr.panicked) ∧
    (∀ v, alistGet item "label" = some v → ItemExt.label item ≠ PanicOr.panicked) := by
  unfold ItemExt.label
  refine ⟨?_, ?_, ?_⟩
  · intro v hv; rw [hv]
  · intro h; rw [h]
  · intro v hv; rw [hv]; intro h; cases h

/-- Witness for C9: a labelled item yields its label; an unlabelled item
panics. -/
theorem label_panics_iff_absent_witness :
    ItemExt.label [("label", "L")] = PanicOr.ok "L" ∧
    ItemExt.label [("href", "h")] = PanicOr.panicked :=
  ⟨(label_panics_iff_absent [("label", "L")]).1 "L" (by decide),
   (label_panics_iff_absent [("href", "h")]).2.1 (by decide)⟩


/-- Inserting at key `k` does not change lookups at other keys. -/
theorem alistGet_alistInsert_ne {α : Type} (m : List (String × α)) (k k' : String) (v : α)
    (h : k ≠ k') : alistGet (alistInsert m k v) k' = alistGet m k' := by
  induction m with
  | nil => simp [alistInsert, alistGet, h]
  | cons kv rest ih =>
    obtain ⟨k0, v0⟩ := kv
    by_cases h0 : k0 = k
    · subst h0
      simp [alistInsert, alistGet, h]
    · unfold alistInsert
      rw [if_neg h0]
      unfold alistGet
      by_cases hk : k0 = k'
      · rw [if_pos hk, if_pos hk]
      · rw [if_neg hk, if_neg hk, ih]

/-- Merging one fresh column appends exactly that column. -/
theorem mergeColumnStep_columns (tomlDoc selfDoc : Doc) (column : String) :
    docColumns (mergeColumnStep tomlDoc selfDoc column) = docColumns selfDoc ++ [column] := by
  simp only [mergeColumnStep, docColumns]
  rcases alistGet (tomlDoc.emoji.getD []) column with _ | v1 <;>
    rcases alistGet (tomlDoc.defaults.getD []) column with _ | v2 <;> rfl

/-- Merging one fresh column leaves the defaults and emoji tables of every
other column unchanged. -/
theorem mergeColumnStep_preserves_ne (tomlDoc selfDoc : Doc) (column c : String)
    (h : column ≠ c) :
    docDefault (mergeColumnStep tomlDoc selfDoc column) c = docDefault selfDoc c ∧
    docEmoji (mergeColumnStep tomlDoc selfDoc column) c = docEmoji selfDoc c := by
  simp only [mergeColumnStep, docDefault, docEmoji]
  rcases alistGet (tomlDoc.emoji.getD []) column with _ | v1 <;>
    rcases alistGet (tomlDoc.defaults.getD []) column with _ | v2 <;>
    exact ⟨by simp [alistGet_alistInsert_ne _ _ _ _ h], by simp [alistGet_alistInsert_ne _ _ _ _ h]⟩

/-- The column-merge loop of `SkillTree::import` appends exactly the
not-yet-present columns of the included document (in order), and the
default/emoji entries of columns already present are untouched. -/
theorem mergeColumnsLoop_spec (tomlDoc : Doc) :
    ∀ (cols : List String) (selfDoc : Doc),
      ∃ newCols,
        docColumns (mergeColumnsLoop tomlDoc cols selfDoc) = docColumns selfDoc ++ newCols ∧
        (∀ c ∈ newCols, c ∉ docColumns selfDoc ∧ c ∈ cols) ∧
        (∀ c ∈ docColumns selfDoc,
          docDefault (mergeColumnsLoop tomlDoc cols selfDoc) c = docDefault selfDoc c ∧
          docEmoji (mergeColumnsLoop tomlDoc cols selfDoc) c = docEmoji selfDoc c) := by
  intro cols
  induction cols with
  | nil =>
    intro selfDoc
    exact ⟨[], by simp [mergeColumnsLoop], by simp, fun c _ => ⟨rfl, rfl⟩⟩
  | cons column rest ih =>
    intro selfDoc
    have hstep : mergeColumnsLoop tomlDoc (column :: rest) selfDoc =
        if column ∈ docColumns selfDoc then
          mergeColumnsLoop tomlDoc rest { selfDoc with columns := some (docColumns selfDoc) }
        else
          mergeColumnsLoop tomlDoc rest
            (mergeColumnStep tomlDoc { selfDoc with columns := some (docColumns selfDoc) } column) :=
      rfl
    rw [hstep]
    by_cases hmem : column ∈ docColumns selfDoc
    · rw [if_pos hmem]
      obtain ⟨newCols, hcols, hfresh, hpres⟩ :=
        ih { selfDoc with columns := some (docColumns selfDoc) }
      refine ⟨newCols, hcols, ?_, hpres⟩
      intro c hc
      exact ⟨(hfresh c hc).1, List.mem_cons_of_mem _ (hfresh c hc).2⟩
    · rw [if_neg hmem]
      have hc1 : docColumns
          (mergeColumnStep tomlDoc { selfDoc with columns := some (docColumns selfDoc) } column) =
          docColumns selfDoc ++ [column] :=
        mergeColumnStep_columns tomlDoc _ column
      obtain ⟨newCols, hcols, hfresh, hpres⟩ :=
        ih (mergeColumnStep tomlDoc { selfDoc with columns := some (docColumns selfDoc) } column)
      refine ⟨column :: newCols, ?_, ?_, ?_⟩
      · rw [hcols, hc1, List.append_assoc]
        rfl
      · intro c hc
        rcases List.mem_cons.mp hc with hc | hc
        · subst hc
          exact ⟨hmem, List.mem_cons_self _ _⟩
        · refine ⟨fun hn => (hfresh c hc).1 ?_, List.mem_cons_of_mem _ (hfresh c hc).2⟩
          rw [hc1]
          exact List.mem_append_left _ hn
      · intro c hc
        have hne : column ≠ c := fun he => hmem (he ▸ hc)
        have hinner := hpres c (by rw [hc1]; exact List.mem_append_left _ hc)
        have houter := mergeColumnStep_preserves_ne tomlDoc
          { selfDoc with columns := some (docColumns selfDoc) } column c hne
        exact ⟨hinner.1.trans houter.1, hinner.2.trans houter.2⟩

/-- C4: the merged column list accumulates in first-seen order — at every
merge step the accumulator's column list is preserved as a prefix and only
columns not already present are appended — and, end to end, a root
declaring columns `[x, y]` whose include declares `[y, z]` loads to the
merged column list `[x, y, z]`. -/
theorem column_order_first_seen :
    (∀ (tomlDoc selfDoc : Doc) (cols : List String),
      ∃ newCols,
        docColumns (mergeColumnsLoop tomlDoc cols selfDoc) = docColumns selfDoc ++ newCols ∧
        ∀ c ∈ newCols, c ∉ docColumns selfDoc ∧ c ∈ cols) ∧
    columnsOf (load fsColumns 10 ["a"]) = ["x", "y", "z"] := by
  constructor
  · intro tomlDoc selfDoc cols
    obtain ⟨newCols, h1, h2, _⟩ := mergeColumnsLoop_spec tomlDoc cols selfDoc
    exact ⟨newCols, h1, h2⟩
  · decide

/-- Witness for C4 at concrete inputs: merging `[y, z]` into an
accumulator holding `[x, y]` keeps `[x, y]` as a prefix, and the concrete
end-to-end load produces `[x, y, z]`. -/
theorem column_order_first_seen_witness :
    (∃ newCols,
      docColumns (mergeColumnsLoop ⟨some ["y", "z"], none, none, none⟩ ["y", "z"]
        ⟨some ["x", "y"], none, none, none⟩) = ["x", "y"] ++ newCols) ∧
    columnsOf (load fsColumns 10 ["a"]) = ["x", "y", "z"] := by
  obtain ⟨h1, h2⟩ := column_order_first_seen
  obtain ⟨newCols, hn, _⟩ :=
    h1 ⟨some ["y", "z"], none, none, none⟩ ⟨some ["x", "y"], none, none, none⟩ ["y", "z"]
  exact ⟨⟨newCols, hn⟩, h2⟩

/-- C5: a column's default value and emoji table are carried over only at
the moment the column is first introduced: for any column `c` already
present in the accumulator, running the column-merge loop of an included
document leaves the accumulator's default and emoji table for `c`
unchanged, whatever the included document declares for `c` — and, end to
end, a column first introduced with default `"?"` keeps that default when
a later include redeclares it with default `"!"`. -/
theorem default_first_introduction_wins (tomlDoc selfDoc : Doc) (cols : List String)
    (c : String) (h : c ∈ docColumns selfDoc) :
    (docDefault (mergeColumnsLoop tomlDoc cols selfDoc) c = docDefault selfDoc c ∧
     docEmoji (mergeColumnsLoop tomlDoc cols selfDoc) c = docEmoji selfDoc c) ∧
    defaultOf (load fsDefaults 10 ["a"]) "s" = some "?" := by
  refine ⟨?_, by decide⟩
  obtain ⟨_, _, _, hpres⟩ := mergeColumnsLoop_spec tomlDoc cols selfDoc
  exact hpres c h

/-- Witness for C5: a later include redeclaring column `s` with default
`"!"` does not change the accumulator's default `"?"`, and the concrete
end-to-end load keeps `"?"`. -/
theorem default_first_introduction_wins_witness :
    docDefault (mergeColumnsLoop ⟨some ["s"], some [("s", "!")], none, none⟩ ["s"]
      ⟨some ["s"], some [("s", "?")], none, none⟩) "s" = some "?" ∧
    defaultOf (load fsDefaults 10 ["a"]) "s" = some "?" := by
  have h := default_first_introduction_wins ⟨some ["s"], some [("s", "!")], none, none⟩
    ⟨some ["s"], some [("s", "?")], none, none⟩ ["s"] "s" (by decide)
  exact ⟨h.1.1.trans (by decide), h.2⟩

/-- Item validation always succeeds (its checks are unimplemented). -/
theorem validateItems_ok (items : List Item) : Group.validateItems items = Except.ok () := by
  induction items with
  | nil => rfl
  | cons item rest ih => exact ih

/-- The requires loop returns exactly the first missing dependency of one
group, as the spec words it. -/
theorem validateRequires_eq (tree : SkillTree) (gname : String) (reqs : List String) :
    Group.validateRequires gname tree reqs =
      match specFirstMissingInReqs tree gname reqs with
      | none => Except.ok ()
      | some e => Except.error e := by
  induction reqs with
  | nil => rfl
  | cons n rest ih =>
    rcases hg : tree.group_named n with _ | g <;>
      simp [Group.validateRequires, specFirstMissingInReqs, hg, ih]

/-- The group loop of `validate` returns exactly the first missing
dependency in merged-group order. -/
theorem validateGroups_eq (tree : SkillTree) (gs : List Group) :
    tree.validateGroups gs =
      match specFirstMissingDep tree gs with
      | none => Except.ok ()
      | some e => Except.error e := by
  induction gs with
  | nil => rfl
  | cons g rest ih =>
    show (match Group.validate g tree with
      | Except.error e => Except.error e
      | Except.ok _ => tree.validateGroups rest) = _
    unfold Group.validate
    rw [validateRequires_eq, validateItems_ok]
    rcases h : specFirstMissingInReqs tree g.name (g.requires.getD []) with _ | e <;>
      simp [specFirstMissingDep, h, ih]

/-- One group has no missing dependency exactly when all its dependency
names resolve. -/
theorem specFirstMissingInReqs_eq_none_iff (tree : SkillTree) (gname : String)
    (reqs : List String) :
    specFirstMissingInReqs tree gname reqs = none ↔
      ∀ n ∈ reqs, (tree.group_named n).isSome := by
  induction reqs with
  | nil => simp [specFirstMissingInReqs]
  | cons n rest ih =>
    rcases hg : tree.group_named n with _ | g <;>
      simp [specFirstMissingInReqs, hg, ih]

/-- No group has a missing dependency exactly when all dependency names of
all groups resolve. -/
theorem specFirstMissingDep_eq_none_iff (tree : SkillTree) (gs : List Group) :
    specFirstMissingDep tree gs = none ↔
      ∀ g ∈ gs, ∀ n ∈ g.requires.getD [], (tree.group_named n).isSome := by
  induction gs with
  | nil => simp [specFirstMissingDep]
  | cons g rest ih =>
    rcases h : specFirstMissingInReqs tree g.name (g.requires.getD []) with _ | e <;>
      simp [specFirstMissingDep, h, ih, ← specFirstMissingInReqs_eq_none_iff tree g.name, h]

/-- C8: `validate` fails with a dependency error naming both the dependant
group and the missing dependency exactly when some group lists a
dependency that `group_named` cannot resolve; it succeeds exactly when
every listed dependency resolves; and the walk is fail-fast, reporting the
first missing dependency in merged-group order and, within a group, in
declared dependency order (`specFirstMissingDep` is that first pair). -/
theorem validate_reports_first_missing_dep (tree : SkillTree) :
    (tree.validate =
      match specFirstMissingDep tree tree.groups with
      | none => Except.ok ()
      | some e => Except.error e) ∧
    (tree.validate = Except.ok () ↔
      ∀ g ∈ tree.groups, ∀ n ∈ g.requires.getD [], (tree.group_named n).isSome) := by
  have h2 : tree.validate =
      match specFirstMissingDep tree tree.groups with
      | none => Except.ok ()
      | some e => Except.error e := validateGroups_eq tree tree.groups
  refine ⟨h2, ?_⟩
  rw [h2, ← specFirstMissingDep_eq_none_iff]
  rcases hsp : specFirstMissingDep tree tree.groups with _ | e <;> simp [hsp]

/-- Witness for C8: a group `B` depending on a non-existent `A` fails with
the error naming `B` and `A`; a tree whose dependencies all resolve
validates successfully. -/
theorem validate_reports_first_missing_dep_witness :
    SkillTree.validate treeMissingDep = Except.error ("B", "A") ∧
    SkillTree.validate treeAllDepsOk = Except.ok () := by
  constructor
  · rw [(validate_reports_first_missing_dep treeMissingDep).1]
    rfl
  · exact (validate_reports_first_missing_dep treeAllDepsOk).2.mpr (by decide)

/-! ## Invariants of the loader: dedup of merged entries and termination -/

/-- Unfolding `importLoop` one include entry at a time. -/
theorem importLoop_cons_eq (loadFn : Path → LoadState → LoadOutcome (SkillTree × LoadState))
    (rootPath ip : Path) (rest : List Path) (self : SkillTree) (st : LoadState) :
    importLoop loadFn rootPath (ip :: rest) self st =
      if ip ∈ st.loaded then
        importLoop loadFn rootPath rest self st
      else
        match pathParent rootPath with
        | none => LoadOutcome.panicked
        | some dir =>
          match loadFn (pathJoin dir ip) ⟨ip :: st.loaded, st.trace ++ [ip]⟩ with
          | LoadOutcome.ok (toml, st'') =>
            importLoop loadFn rootPath rest (mergeTree self toml) st''
          | LoadOutcome.error => LoadOutcome.error
          | LoadOutcome.panicked => LoadOutcome.panicked
          | LoadOutcome.diverge => LoadOutcome.diverge := rfl

/-- Unfolding `loadIncludedPath` at positive fuel. -/
theorem loadIncludedPath_succ (fs : FileSystem) (fuel : Nat) (path : Path) (st : LoadState) :
    loadIncludedPath fs (fuel + 1) path st =
      match fsRead fs path with
      | none => LoadOutcome.error
      | some tree => importTree (loadIncludedPath fs fuel) tree path st := rfl

/-- The include loop preserves the state invariant (trace without
duplicates, trace inside the loaded set), given that the recursive loader
does. -/
theorem importLoop_wf (loadFn : Path → LoadState → LoadOutcome (SkillTree × LoadState))
    (hFn : ∀ p st t st', StateWF st → loadFn p st = LoadOutcome.ok (t, st') → StateWF st') :
    ∀ (inc : List Path) (rootPath : Path) (self : SkillTree) (st : LoadState)
      (t : SkillTree) (st' : LoadState),
      StateWF st → importLoop loadFn rootPath inc self st = LoadOutcome.ok (t, st') →
      StateWF st' := by
  intro inc
  induction inc with
  | nil =>
    intro rootPath self st t st' hwf h
    cases h
    exact hwf
  | cons ip rest ih =>
    intro rootPath self st t st' hwf h
    rw [importLoop_cons_eq] at h
    split at h
    · exact ih rootPath self st t st' hwf h
    · rename_i hmem
      split at h
      · cases h
      · rename_i dir hdir
        have hwf1 : StateWF ⟨ip :: st.loaded, st.trace ++ [ip]⟩ := by
          constructor
          · refine List.Nodup.append hwf.1 (List.nodup_singleton ip) ?_
            intro a ha hb
            rw [List.mem_singleton] at hb
            subst hb
            exact hmem (hwf.2 a ha)
          · intro p hp
            rcases List.mem_append.mp hp with hp | hp
            · exact List.mem_cons_of_mem _ (hwf.2 p hp)
            · rw [List.mem_singleton] at hp
              subst hp
              exact List.mem_cons_self _ _
        split at h
        · rename_i toml st2 hload
          exact ih rootPath (mergeTree self toml) st2 t st' (hFn _ _ _ _ hwf1 hload) h
        · cases h
        · cases h
        · cases h

/-- The loader preserves the state invariant. -/
theorem loadIncludedPath_wf (fs : FileSystem) :
    ∀ (fuel : Nat) (path : Path) (st : LoadState) (t : SkillTree) (st' : LoadState),
      StateWF st → loadIncludedPath fs fuel path st = LoadOutcome.ok (t, st') →
      StateWF st' := by
  intro fuel
  induction fuel with
  | zero =>
    intro path st t st' _ h
    cases h
  | succ fuel ih =>
    intro path st t st' hwf h
    rw [loadIncludedPath_succ] at h
    split at h
    · cases h
    · rename_i tree hread
      unfold importTree at h
      split at h
      · cases h
        exact hwf
      · rename_i doc hdoc
        split at h
        · cases h
          exact hwf
        · rename_i inc hinc
          exact importLoop_wf _ (fun p st t st' => ih p st t st') inc path tree st t st' hwf h

/-- The include loop only grows the loaded set, given that the recursive
loader does. -/
theorem importLoop_mono (loadFn : Path → LoadState → LoadOutcome (SkillTree × LoadState))
    (hFn : ∀ p st t st', loadFn p st = LoadOutcome.ok (t, st') → st.loaded ⊆ st'.loaded) :
    ∀ (inc : List Path) (rootPath : Path) (self : SkillTree) (st : LoadState)
      (t : SkillTree) (st' : LoadState),
      importLoop loadFn rootPath inc self st = LoadOutcome.ok (t, st') →
      st.loaded ⊆ st'.loaded := by
  intro inc
  induction inc with
  | nil =>
    intro rootPath self st t st' h
    cases h
    exact fun p hp => hp
  | cons ip rest ih =>
    intro rootPath self st t st' h
    rw [importLoop_cons_eq] at h
    split at h
    · exact ih rootPath self st t st' h
    · split at h
      · cases h
      · rename_i dir hdir
        split at h
        · rename_i toml st2 hload
          intro p hp
          exact ih rootPath (mergeTree self toml) st2 t st' h
            (hFn _ _ _ _ hload (List.mem_cons_of_mem _ hp))
        · cases h
        · cases h
        · cases h

/-- The loader only grows the loaded set. -/
theorem loadIncludedPath_mono (fs : FileSystem) :
    ∀ (fuel : Nat) (path : Path) (st : LoadState) (t : SkillTree) (st' : LoadState),
      loadIncludedPath fs fuel path st = LoadOutcome.ok (t, st') →
      st.loaded ⊆ st'.loaded := by
  intro fuel
  induction fuel with
  | zero =>
    intro path st t st' h
    cases h
  | succ fuel ih =>
    intro path st t st' h
    rw [loadIncludedPath_succ] at h
    split at h
    · cases h
    · rename_i tree hread
      unfold importTree at h
      split at h
      · cases h
        exact fun p hp => hp
      · rename_i doc hdoc
        split at h
        · cases h
          exact fun p hp => hp
        · rename_i inc hinc
          exact importLoop_mono _ (fun p st t st' => ih p st t st') inc path tree st t st' h

/-- Filtering by freshness against a superset keeps a sublist. -/
theorem filter_fresh_sublist (loaded loaded' : List Path) (hsub : loaded ⊆ loaded')
    (l : List Path) :
    List.Sublist (l.filter (fun e => decide (e ∉ loaded')))
      (l.filter (fun e => decide (e ∉ loaded))) := by
  refine List.monotone_filter_right l ?_
  intro a ha
  simp only [decide_eq_true_eq] at ha ⊢
  exact fun hm => ha (hsub hm)

/-- Growing the loaded set cannot increase the fresh-entry count. -/
theorem countFresh_mono (fs : FileSystem) (loaded loaded' : List Path)
    (hsub : loaded ⊆ loaded') : countFresh fs loaded' ≤ countFresh fs loaded :=
  (filter_fresh_sublist loaded loaded' hsub (fsEntries fs)).length_le

/-- Inserting a fresh entry that occurs in the list strictly decreases the
fresh-entry count of that list. -/
theorem filter_fresh_insert_lt (e : Path) (loaded : List Path) (hne : e ∉ loaded) :
    ∀ l : List Path, e ∈ l →
      (l.filter (fun x => decide (x ∉ (e :: loaded)))).length <
        (l.filter (fun x => decide (x ∉ loaded))).length := by
  intro l
  induction l with
  | nil =>
    intro h
    cases h
  | cons x xs ih =>
    intro hmem
    by_cases hx : x = e
    · subst hx
      rw [List.filter_cons_of_neg (by simp), List.filter_cons_of_pos (by simp [hne])]
      exact Nat.lt_succ_of_le
        (filter_fresh_sublist loaded (x :: loaded) (List.subset_cons_self _ _) xs).length_le
    · have hxs : e ∈ xs := by
        rcases List.mem_cons.mp hmem with h | h
        · exact absurd h.symm hx
        · exact h
      by_cases hfx : x ∈ loaded
      · rw [List.filter_cons_of_neg (by simp [hfx]),
          List.filter_cons_of_neg (by simp [List.mem_cons, hfx])]
        exact ih hxs
      · rw [List.filter_cons_of_pos (by simp [List.mem_cons, hx, hfx]),
          List.filter_cons_of_pos (by simp [hfx])]
        exact Nat.succ_lt_succ (ih hxs)

/-- Inserting a fresh include entry of the file system strictly decreases
the fresh-entry count. -/
theorem countFresh_insert_lt (fs : FileSystem) (loaded : List Path) (e : Path)
    (he : e ∈ fsEntries fs) (hne : e ∉ loaded) :
    countFresh fs (e :: loaded) < countFresh fs loaded :=
  filter_fresh_insert_lt e loaded hne (fsEntries fs) he

/-- Every include entry of a document read from the file system occurs in
the file system's entry list. -/
theorem fsRead_includes_mem (fs : FileSystem) :
    ∀ (path : Path) (t : SkillTree), fsRead fs path = some t →
      ∀ e ∈ treeIncludes t, e ∈ fsEntries fs := by
  induction fs with
  | nil =>
    intro path t h
    cases h
  | cons pt rest ih =>
    intro path t h e he
    obtain ⟨p', t'⟩ := pt
    unfold fsRead at h
    by_cases hp : p' = path
    · rw [if_pos hp] at h
      cases h
      exact List.mem_append_left _ he
    · rw [if_neg hp] at h
      exact List.mem_append_right _ (ih path t h e he)

/-- The include loop cannot exhaust its fuel while fewer fresh entries
remain than the fuel of the recursive loader. -/
theorem importLoop_no_diverge (fs : FileSystem)
    (loadFn : Path → LoadState → LoadOutcome (SkillTree × LoadState)) (N : Nat)
    (hFnDiv : ∀ p st, countFresh fs st.loaded < N → loadFn p st ≠ LoadOutcome.diverge)
    (hFnMono : ∀ p st t st', loadFn p st = LoadOutcome.ok (t, st') → st.loaded ⊆ st'.loaded) :
    ∀ (inc : List Path) (rootPath : Path) (self : SkillTree) (st : LoadState),
      (∀ e ∈ inc, e ∈ fsEntries fs) → countFresh fs st.loaded ≤ N →
      importLoop loadFn rootPath inc self st ≠ LoadOutcome.diverge := by
  intro inc
  induction inc with
  | nil =>
    intro rootPath self st _ _ h
    cases h
  | cons ip rest ih =>
    intro rootPath self st hin hle h
    rw [importLoop_cons_eq] at h
    split at h
    · exact ih rootPath self st (fun e he => hin e (List.mem_cons_of_mem _ he)) hle h
    · rename_i hmem
      split at h
      · cases h
      · rename_i dir hdir
        have hipe : ip ∈ fsEntries fs := hin ip (List.mem_cons_self _ _)
        have hlt : countFresh fs (ip :: st.loaded) < N :=
          lt_of_lt_of_le (countFresh_insert_lt fs st.loaded ip hipe hmem) hle
        split at h
        · rename_i toml st2 hload
          have hsub := hFnMono _ _ _ _ hload
          have hle2 : countFresh fs st2.loaded ≤ N :=
            le_of_lt (lt_of_le_of_lt (countFresh_mono fs _ _ hsub) hlt)
          exact ih rootPath (mergeTree self toml) st2
            (fun e he => hin e (List.mem_cons_of_mem _ he)) hle2 h
        · cases h
        · cases h
        · rename_i hload
          exact hFnDiv _ _ hlt hload

/-- With more fuel than remaining fresh include entries, the loader cannot
exhaust its fuel. -/
theorem loadIncludedPath_no_diverge (fs : FileSystem) :
    ∀ (fuel : Nat) (path : Path) (st : LoadState),
      countFresh fs st.loaded < fuel →
      loadIncludedPath fs fuel path st ≠ LoadOutcome.diverge := by
  intro fuel
  induction fuel with
  | zero =>
    intro path st hlt
    exact absurd hlt (Nat.not_lt_zero _)
  | succ fuel ih =>
    intro path st hlt h
    rw [loadIncludedPath_succ] at h
    split at h
    · cases h
    · rename_i tree hread
      unfold importTree at h
      split at h
      · cases h
      · rename_i doc hdoc
        split at h
        · cases h
        · rename_i inc hinc
          have htreeinc : treeIncludes tree = inc := by
            simp [treeIncludes, hdoc, hinc]
          have hin : ∀ e ∈ inc, e ∈ fsEntries fs := by
            intro e he
            exact fsRead_includes_mem fs path tree hread e (htreeinc ▸ he)
          exact importLoop_no_diverge fs _ fuel
            (fun p st hplt => ih p st hplt)
            (fun p st t st' => loadIncludedPath_mono fs fuel p st t st')
            inc path tree st hin (Nat.lt_succ_iff.mp hlt) h

/-- The ghost trace of any load has no duplicate include entries. -/
theorem loadWithState_trace_nodup (fs : FileSystem) (fuel : Nat) (path : Path) :
    (traceOf (loadWithState fs fuel path)).Nodup := by
  unfold traceOf
  rcases h : loadWithState fs fuel path with ⟨t, st'⟩ | _ | _ | _
  · exact (loadIncludedPath_wf fs fuel path ⟨[path], []⟩ t st'
      ⟨List.nodup_nil, by simp⟩ h).1
  · exact List.nodup_nil
  · exact List.nodup_nil
  · exact List.nodup_nil

/-- C1 as amended: during load, each include path as written is entered
into the loaded-paths set and merged at most once per load session — the
trace of merged include entries never contains a duplicate, for every
file system, fuel and root path.  (The guard of `SkillTree::import` tests
and inserts the include entry exactly as written, before the resolved
path is even computed.) -/
theorem load_merges_each_raw_entry_at_most_once (fs : FileSystem) (fuel : Nat) (path : Path) :
    (traceOf (loadWithState fs fuel path)).Nodup :=
  loadWithState_trace_nodup fs fuel path

/-- C2 as amended: for every root document — in particular one whose
include graph contains a cycle — load completes without infinite
recursion or crash once the fuel exceeds the total number of include
entries in the file system, and each include entry as written is merged
at most once. -/
theorem load_cycle_terminates (fs : FileSystem) (path : Path) (fuel : Nat)
    (hfuel : (fsEntries fs).length < fuel) :
    load fs fuel path ≠ LoadOutcome.diverge ∧
    (traceOf (loadWithState fs fuel path)).Nodup := by
  constructor
  · intro h
    have hstart : countFresh fs [path] ≤ (fsEntries fs).length := by
      unfold countFresh
      exact (List.filter_sublist _).length_le
    have hne := loadIncludedPath_no_diverge fs fuel path ⟨[path], []⟩
      (lt_of_le_of_lt hstart hfuel)
    unfold load loadWithState at h
    split at h
    · cases h
    · cases h
    · cases h
    · rename_i hl
      exact hne hl
  · exact loadWithState_trace_nodup fs fuel path

/-- Witness for C2: the cyclic file system `fsCycle` has 4 include
entries, and loading it with fuel 10 neither diverges nor records a
duplicate merged entry. -/
theorem load_cycle_terminates_witness :
    (fsEntries fsCycle).length < 10 ∧
    (load fsCycle 10 ["a"] ≠ LoadOutcome.diverge ∧
      (traceOf (loadWithState fsCycle 10 ["a"])).Nodup) :=
  ⟨by decide, load_cycle_terminates fsCycle ["a"] 10 (by decide)⟩

end STree
